import Mathlib

/-!
Verification of the CAN log replay script (scripts/play-log-file.py).

The script reads CSV rows, parses each into a record (timestamp in
microseconds, hexadecimal arbitration id, declared length, extended flag,
payload bytes from the D1..DLEN columns), establishes a timing baseline at
the first successfully parsed record, sleeps until each record's
baseline-relative deadline, and sends the frame, printing a confirmation
line.  A per-row try/except skips any row whose processing raises.

The embedding below models rows as association lists of string fields,
Python integer parsing on signed digit strings (with the optional 0x prefix
for base 16), wall-clock time as rationals, and the replay loop as a step
function over an explicit state (baseline, clock, event trace).  Each row is
processed together with an environment giving the nonnegative scheduling
delays around the timed wait and whether the bus send raises.
-/

/-- Value of a single hexadecimal digit character, if it is one. -/
def hexVal? (c : Char) : Option Nat :=
  if '0' ≤ c ∧ c ≤ '9' then some (c.toNat - 48)
  else if 'a' ≤ c ∧ c ≤ 'f' then some (c.toNat - 87)
  else if 'A' ≤ c ∧ c ≤ 'F' then some (c.toNat - 55)
  else none

/-- Accumulate the value of a digit string in the given base. -/
def digitsAux (base : Nat) (acc : Nat) : List Char → Option Nat
  | [] => some acc
  | c :: cs =>
    match hexVal? c with
    | some d => if d < base then digitsAux base (acc * base + d) cs else none
    | none => none

/-- Value of a nonempty all-digit string in the given base. -/
def parseDigits (base : Nat) (cs : List Char) : Option Nat :=
  match cs with
  | [] => none
  | _ :: _ => digitsAux base 0 cs

/-- Drop an optional 0x / 0X prefix, as accepted by Python int(s, 16). -/
def dropHexMark : List Char → List Char
  | '0' :: 'x' :: rest => rest
  | '0' :: 'X' :: rest => rest
  | cs => cs

/-- Python int(s): optional sign then decimal digits (whitespace and
underscore forms are outside the modelled domain). -/
def pyInt (s : String) : Option Int :=
  match s.data with
  | '-' :: rest => (parseDigits 10 rest).map (fun n => -(n : Int))
  | '+' :: rest => (parseDigits 10 rest).map Int.ofNat
  | cs => (parseDigits 10 cs).map Int.ofNat

/-- Python int(s, 16): optional sign, optional 0x prefix, hex digits. -/
def pyIntHex (s : String) : Option Int :=
  match s.data with
  | '-' :: rest => (parseDigits 16 (dropHexMark rest)).map (fun n => -(n : Int))
  | '+' :: rest => (parseDigits 16 (dropHexMark rest)).map Int.ofNat
  | cs => (parseDigits 16 (dropHexMark cs)).map Int.ofNat

/-- Python str.lower() on the ASCII range. -/
def pyLower (s : String) : String :=
  ⟨s.data.map Char.toLower⟩

/-- A CSV row as produced by csv.DictReader: named string fields.
A missing key models a KeyError on access. -/
structure Row where
  fields : List (String × String)
deriving DecidableEq

/-- row[k] : the value of field k, none when the key is absent. -/
def Row.get (r : Row) (k : String) : Option String :=
  r.fields.lookup k

/-- A parsed log record, one per successfully parsed row (lines 22-31).
ts_us is the raw integer microsecond timestamp; the script works with
ts = ts_us / 1e6. -/
structure Record where
  ts_us : Int
  canid : Int
  dlc : Int
  is_ext : Bool
  data : List Int
deriving DecidableEq

/-- record.timestamp_seconds : ts = int(row[Time Stamp]) / 1e6. -/
def Record.tsQ (r : Record) : ℚ :=
  (r.ts_us : ℚ) / 1000000

/-- Decimal digit characters of a nat, most significant first
(uppercase letters for values 10-15 in larger bases). -/
def digitChar (n : Nat) : Char :=
  if n < 10 then Char.ofNat (48 + n) else Char.ofNat (55 + n)

/-- Fuel-driven digit expansion; fuel n+1 always suffices for value n. -/
def natDigitsAux (base : Nat) : Nat → Nat → List Char → List Char
  | 0, _, acc => acc
  | fuel + 1, n, acc =>
    if n < base then digitChar n :: acc
    else natDigitsAux base fuel (n / base) (digitChar (n % base) :: acc)

/-- Decimal rendering of a nat. -/
def natToDec (n : Nat) : String :=
  ⟨natDigitsAux 10 (n + 1) n []⟩

/-- Uppercase hexadecimal rendering of a nat. -/
def natToHexU (n : Nat) : String :=
  ⟨natDigitsAux 16 (n + 1) n []⟩

/-- str(i) for a Python int. -/
def intToDec (i : Int) : String :=
  if i < 0 then "-" ++ natToDec (-i).toNat else natToDec i.toNat

/-- Python format spec X on an int (uppercase hex, sign in front). -/
def intToHexU (i : Int) : String :=
  if i < 0 then "-" ++ natToHexU (-i).toNat else natToHexU i.toNat

/-- Left-pad a string with a character to the given width. -/
def padLeft (c : Char) (w : Nat) (s : String) : String :=
  String.mk (List.replicate (w - s.length) c) ++ s

/-- Python format spec 02X on a payload value. -/
def hex2 (b : Int) : String :=
  padLeft '0' 2 (intToHexU b)

/-- Python format spec .6f applied to ts = m / 1e6 for integer m:
exact six fractional digits (float rounding outside the modelled domain). -/
def fmt6 (m : Int) : String :=
  if m < 0 then
    "-" ++ natToDec ((-m).toNat / 1000000) ++ "." ++
      padLeft '0' 6 (natToDec ((-m).toNat % 1000000))
  else
    natToDec (m.toNat / 1000000) ++ "." ++
      padLeft '0' 6 (natToDec (m.toNat % 1000000))

/-- The data-byte collection loop (lines 27-31): for each index i in
range(1, dlc+1) look up column Di; a missing key raises (none), an empty
value is skipped, a nonempty value is parsed as hex and appended. -/
def collectData (row : Row) : List Nat → Option (List Int)
  | [] => some []
  | i :: is =>
    match row.get ("D" ++ natToDec i) with
    | none => none
    | some v =>
      if v = "" then
        collectData row is
      else
        match pyIntHex v with
        | none => none
        | some b =>
          match collectData row is with
          | none => none
          | some rest => some (b :: rest)

/-- The parse phase of the loop body (lines 22-31), in source order:
Time Stamp, ID, LEN, Extended, then the D columns.  Any failure
(missing key or unparsable text) aborts the whole record. -/
def parseRecord (row : Row) : Option Record :=
  match row.get ("Time Stamp") with
  | none => none
  | some tsS =>
  match pyInt tsS with
  | none => none
  | some ts_us =>
  match row.get ("ID") with
  | none => none
  | some idS =>
  match pyIntHex idS with
  | none => none
  | some canid =>
  match row.get ("LEN") with
  | none => none
  | some lenS =>
  match pyInt lenS with
  | none => none
  | some dlc =>
  match row.get ("Extended") with
  | none => none
  | some extS =>
  match collectData row (List.range' 1 dlc.toNat) with
  | none => none
  | some data =>
    some ⟨ts_us, canid, dlc, pyLower extS == "true", data⟩

/-- bytes(data_bytes) (line 43): succeeds iff every value is in 0..255. -/
def pyBytes (l : List Int) : Option (List Nat) :=
  if l.all (fun b => decide (0 ≤ b) && decide (b ≤ 255)) then
    some (l.map Int.toNat)
  else none

/-- The confirmation line printed after a successful send (line 45). -/
def printLine (rec : Record) : String :=
  "Sent t=" ++ fmt6 rec.ts_us ++ "s ID=0x" ++ intToHexU rec.canid ++
    " DLC=" ++ intToDec rec.dlc ++ " Data=" ++
    String.intercalate " " (rec.data.map hex2)

/-- Per-row environment: nonnegative wall-clock delays around the loop body
(dP before the baseline check, dW between the baseline write and the
time.time() read of line 37, dS between the end of the wait and the send
completing) and whether bus.send raises for this row. -/
structure Env where
  dP : ℚ
  dW : ℚ
  dS : ℚ
  sendFail : Bool
deriving DecidableEq

/-- The stage at which a row's processing raised. -/
inductive ErrKind where
  | parseErr
  | buildErr
  | sendErr
deriving DecidableEq

/-- An observable event of the run: a frame sent at a wall-clock time with
its console line, or a row skipped by the except handler (which prints the
error and the raw row). -/
inductive Ev where
  | sent (line : String) (t : ℚ) (rec : Record)
  | skipped (k : ErrKind) (row : Row)
deriving DecidableEq

/-- Replay state: the baseline pair (start_ts, start_time) — the source
checks start_ts is None and always writes both together (lines 33-35) —
the current wall clock, and the trace of events so far. -/
structure RState where
  baseline : Option (ℚ × ℚ)
  clock : ℚ
  events : List Ev
deriving DecidableEq

/-- start_ts component of the baseline. -/
def RState.start_ts (st : RState) : Option ℚ :=
  st.baseline.map Prod.fst

/-- start_time component of the baseline. -/
def RState.start_time (st : RState) : Option ℚ :=
  st.baseline.map Prod.snd

/-- One iteration of the replay loop (lines 20-47) on one row.  The whole
body sits in try/except: a failure at any stage appends a skipped event and
the loop moves on.  Control flow, in source order: parse (22-31); establish
the baseline if unset (33-35); read the clock, compute
wait_time = (ts - start_ts) - elapsed and sleep exactly wait_time when
positive (37-41); build the frame, bytes() checking the byte range (43);
send, which the environment may fail (44); print (45). -/
def step (st : RState) (row : Row) (e : Env) : RState :=
  match parseRecord row with
  | none =>
    ⟨st.baseline, st.clock + e.dP, st.events ++ [Ev.skipped ErrKind.parseErr row]⟩
  | some rec =>
    let c1 := st.clock + e.dP
    let b := st.baseline.getD (rec.tsQ, c1)
    let now := c1 + e.dW
    let elapsed := now - b.2
    let wait := (rec.tsQ - b.1) - elapsed
    let c3 := if 0 < wait then now + wait else now
    match pyBytes rec.data with
    | none =>
      ⟨some b, c3, st.events ++ [Ev.skipped ErrKind.buildErr row]⟩
    | some _ =>
      let c4 := c3 + e.dS
      if e.sendFail then
        ⟨some b, c4, st.events ++ [Ev.skipped ErrKind.sendErr row]⟩
      else
        ⟨some b, c4, st.events ++ [Ev.sent (printLine rec) c4 rec]⟩

/-- The whole run: fold the loop body over the rows in file order. -/
def run (st : RState) : List (Row × Env) → RState
  | [] => st
  | p :: ps => run (step st p.1 p.2) ps

/-- Initial state: no baseline, the wall clock at t0, nothing sent. -/
def init (t0 : ℚ) : RState :=
  ⟨none, t0, []⟩

/-- The (send time, record) pairs of the frames sent so far, in order. -/
def sentList (st : RState) : List (ℚ × Record) :=
  st.events.filterMap (fun ev =>
    match ev with
    | Ev.sent _ t r => some (t, r)
    | Ev.skipped _ _ => none)

/-- The wait_time the loop body would compute for a record in a given state
and environment (line 39, after the baseline update of lines 33-35). -/
def stepWait (st : RState) (rec : Record) (e : Env) : ℚ :=
  let c1 := st.clock + e.dP
  let b := st.baseline.getD (rec.tsQ, c1)
  (rec.tsQ - b.1) - ((c1 + e.dW) - b.2)

/-- An environment with nonnegative delays and a working bus. -/
def goodEnv (e : Env) : Prop :=
  0 ≤ e.dP ∧ 0 ≤ e.dW ∧ 0 ≤ e.dS ∧ e.sendFail = false

/-- The idealized environment: every non-sleep operation is instantaneous
and the bus works. -/
def envZero : Env :=
  ⟨0, 0, 0, false⟩

/-- The baseline pair the loop body uses for a record: the stored pair when
already set, else the newly established (ts, time.time()) pair. -/
def baseAfter (st : RState) (rec : Record) (e : Env) : ℚ × ℚ :=
  st.baseline.getD (rec.tsQ, st.clock + e.dP)

/-- The wall clock after the guarded wait of lines 37-41. -/
def clockAfterWait (st : RState) (rec : Record) (e : Env) : ℚ :=
  let c1 := st.clock + e.dP
  let b := st.baseline.getD (rec.tsQ, c1)
  let now := c1 + e.dW
  let wait := (rec.tsQ - b.1) - (now - b.2)
  if 0 < wait then now + wait else now

/-- A fully valid input: the row parses to the record, the environment has
nonnegative delays and a working bus, and the payload passes bytes(). -/
def okInput (p : Row × Env) (rec : Record) : Prop :=
  parseRecord p.1 = some rec ∧ goodEnv p.2 ∧ (pyBytes rec.data).isSome

/-- Sample row: timestamp 5 s, ID 1A, one payload byte FF. -/
def rowA : Row :=
  ⟨[("Time Stamp", "5000000"), ("ID", "1A"), ("LEN", "1"),
    ("Extended", "False"), ("D1", "FF")]⟩

/-- Sample row: timestamp 6 s, ID 1A, one payload byte FF. -/
def rowB : Row :=
  ⟨[("Time Stamp", "6000000"), ("ID", "1A"), ("LEN", "1"),
    ("Extended", "False"), ("D1", "FF")]⟩

/-- Malformed row: the ID field is not hexadecimal. -/
def rowBadId : Row :=
  ⟨[("Time Stamp", "0"), ("ID", "ZZ"), ("LEN", "1"),
    ("Extended", "True"), ("D1", "FF")]⟩

/-- Row with a negative LEN field. -/
def rowNegLen : Row :=
  ⟨[("Time Stamp", "0"), ("ID", "1A"), ("LEN", "-1"), ("Extended", "x")]⟩

/-- Row whose D1 field parses to 511, outside the byte range. -/
def rowBigByte : Row :=
  ⟨[("Time Stamp", "0"), ("ID", "1A"), ("LEN", "1"),
    ("Extended", "True"), ("D1", "1FF")]⟩

/-- Row with LEN=3 and only D1, D3 populated. -/
def rowSparse : Row :=
  ⟨[("Time Stamp", "0"), ("ID", "1A"), ("LEN", "3"),
    ("Extended", "true"), ("D1", "AA"), ("D2", ""), ("D3", "0B")]⟩

/-- A valid row template whose Extended field is the given text. -/
def rowExtT (s : String) : Row :=
  ⟨[("Time Stamp", "0"), ("ID", "1A"), ("LEN", "1"),
    ("Extended", s), ("D1", "FF")]⟩

/-- The record rowA parses to. -/
def recA : Record :=
  ⟨5000000, 26, 1, false, [255]⟩

/-- The record rowB parses to. -/
def recB : Record :=
  ⟨6000000, 26, 1, false, [255]⟩

/-- The console line of an event, when it is a sent-frame confirmation. -/
def evLine (ev : Ev) : Option String :=
  match ev with
  | Ev.sent line _ _ => some line
  | Ev.skipped _ _ => none

/-- The records sent so far, in order, without their send times. -/
def sentRecs (st : RState) : List Record :=
  (sentList st).map Prod.snd

/-- The payload bytes D1..DLEN of a row as the source collects them:
non-empty sub-fields in field order, empty ones omitted. -/
def payloadSpec (row : Row) (dlc : Int) : List Int :=
  (List.range' 1 dlc.toNat).filterMap (fun i =>
    (row.get ("D" ++ natToDec i)).bind (fun v =>
      if v = "" then none else pyIntHex v))

theorem step_parse_none {st : RState} {row : Row} {e : Env}
    (h : parseRecord row = none) :
    step st row e =
      ⟨st.baseline, st.clock + e.dP,
        st.events ++ [Ev.skipped ErrKind.parseErr row]⟩ := by
  simp [step, h]

theorem step_build_none {st : RState} {row : Row} {e : Env} {rec : Record}
    (hp : parseRecord row = some rec) (hb : pyBytes rec.data = none) :
    step st row e =
      ⟨some (baseAfter st rec e), clockAfterWait st rec e,
        st.events ++ [Ev.skipped ErrKind.buildErr row]⟩ := by
  simp [step, hp, hb, baseAfter, clockAfterWait]

theorem step_send_fail {st : RState} {row : Row} {e : Env} {rec : Record}
    {bs : List Nat} (hp : parseRecord row = some rec)
    (hb : pyBytes rec.data = some bs) (hf : e.sendFail = true) :
    step st row e =
      ⟨some (baseAfter st rec e), clockAfterWait st rec e + e.dS,
        st.events ++ [Ev.skipped ErrKind.sendErr row]⟩ := by
  simp [step, hp, hb, hf, baseAfter, clockAfterWait]

theorem step_sent {st : RState} {row : Row} {e : Env} {rec : Record}
    {bs : List Nat} (hp : parseRecord row = some rec)
    (hb : pyBytes rec.data = some bs) (hf : e.sendFail = false) :
    step st row e =
      ⟨some (baseAfter st rec e), clockAfterWait st rec e + e.dS,
        st.events ++
          [Ev.sent (printLine rec) (clockAfterWait st rec e + e.dS) rec]⟩ := by
  simp [step, hp, hb, hf, baseAfter, clockAfterWait]

/-- The guarded wait is exactly the positive part of wait_time. -/
theorem clockAfterWait_eq (st : RState) (rec : Record) (e : Env) :
    clockAfterWait st rec e =
      st.clock + e.dP + e.dW +
        (if 0 < stepWait st rec e then stepWait st rec e else 0) := by
  simp only [clockAfterWait, stepWait]
  split <;> ring

/-- With the baseline set, wait_time is the deadline offset minus elapsed. -/
theorem stepWait_eq {st : RState} {rec : Record} {e : Env} {s T : ℚ}
    (hb : st.baseline = some (s, T)) :
    stepWait st rec e = (rec.tsQ - s) - ((st.clock + e.dP + e.dW) - T) := by
  simp [stepWait, hb]

/-- The wait never lets the clock pass the record's baseline deadline from
below: after the wait the clock is at or beyond start_time + (ts - start_ts). -/
theorem clockAfterWait_ge {st : RState} {rec : Record} {e : Env} {s T : ℚ}
    (hb : st.baseline = some (s, T)) :
    T + (rec.tsQ - s) ≤ clockAfterWait st rec e := by
  simp only [clockAfterWait, hb, Option.getD_some]
  split <;> linarith

/-- For the record that establishes the baseline, wait_time is not positive,
so no sleep happens: the clock just accumulates the scheduling delays. -/
theorem clockAfterWait_first {st : RState} {rec : Record} {e : Env}
    (hb : st.baseline = none) (hW : 0 ≤ e.dW) :
    clockAfterWait st rec e = st.clock + e.dP + e.dW := by
  simp only [clockAfterWait, hb, Option.getD_none]
  have : ¬ 0 < (rec.tsQ - rec.tsQ) - ((st.clock + e.dP + e.dW) - (st.clock + e.dP)) := by
    simp only [not_lt]
    linarith
  rw [if_neg this]

theorem stepWait_first {st : RState} {rec : Record} {e : Env}
    (hb : st.baseline = none) :
    stepWait st rec e = -e.dW := by
  simp only [stepWait, hb, Option.getD_none]
  ring

theorem sentList_mk (b : Option (ℚ × ℚ)) (c : ℚ) (es : List Ev) (ev : Ev) :
    sentList ⟨b, c, es ++ [ev]⟩ =
      sentList ⟨b, c, es⟩ ++
        (match ev with
          | Ev.sent _ t r => [(t, r)]
          | Ev.skipped _ _ => []) := by
  simp only [sentList, List.filterMap_append]
  cases ev <;> rfl

/-- sentList only looks at the event trace. -/
theorem sentList_events (st st' : RState) (h : st.events = st'.events) :
    sentList st = sentList st' := by
  simp [sentList, h]

/-- Case split on one loop iteration: it always appends exactly one event,
either the sent frame or a skipped row tagged with the failing stage. -/
theorem step_shape (st : RState) (row : Row) (e : Env) :
    (∃ ev, (step st row e).events = st.events ++ [ev]) := by
  match hp : parseRecord row with
  | none => exact ⟨_, by rw [step_parse_none hp]⟩
  | some rec =>
    match hb : pyBytes rec.data with
    | none => exact ⟨_, by rw [step_build_none hp hb]⟩
    | some bs =>
      match hf : e.sendFail with
      | true => exact ⟨_, by rw [step_send_fail hp hb hf]⟩
      | false => exact ⟨_, by rw [step_sent hp hb hf]⟩

/-- Once the baseline is set, no later iteration changes it. -/
theorem step_baseline_stable {st : RState} {b : ℚ × ℚ} (row : Row) (e : Env)
    (hb : st.baseline = some b) :
    (step st row e).baseline = some b := by
  match hp : parseRecord row with
  | none => rw [step_parse_none hp]; exact hb
  | some rec =>
    have hba : baseAfter st rec e = b := by simp [baseAfter, hb]
    match hby : pyBytes rec.data with
    | none => rw [step_build_none hp hby, hba]
    | some bs =>
      match hf : e.sendFail with
      | true => rw [step_send_fail hp hby hf, hba]
      | false => rw [step_sent hp hby hf, hba]

/-- A malformed row leaves the baseline exactly as it was. -/
theorem step_baseline_parse_none {st : RState} {row : Row} (e : Env)
    (hp : parseRecord row = none) :
    (step st row e).baseline = st.baseline := by
  rw [step_parse_none hp]

/-- A successfully parsed row with no baseline yet establishes it, as the
pair (its timestamp, the wall clock read at line 35). -/
theorem step_baseline_set {st : RState} {row : Row} {e : Env} {rec : Record}
    (hb : st.baseline = none) (hp : parseRecord row = some rec) :
    (step st row e).baseline = some (rec.tsQ, st.clock + e.dP) := by
  have hba : baseAfter st rec e = (rec.tsQ, st.clock + e.dP) := by
    simp [baseAfter, hb]
  match hby : pyBytes rec.data with
  | none => rw [step_build_none hp hby, hba]
  | some bs =>
    match hf : e.sendFail with
    | true => rw [step_send_fail hp hby hf, hba]
    | false => rw [step_sent hp hby hf, hba]

/-- The run processes every row: one appended event per row. -/
theorem run_events_length (inputs : List (Row × Env)) : ∀ st : RState,
    (run st inputs).events.length = st.events.length + inputs.length := by
  induction inputs with
  | nil => intro st; simp [run]
  | cons p ps ih =>
    intro st
    obtain ⟨ev, hev⟩ := step_shape st p.1 p.2
    have := ih (step st p.1 p.2)
    rw [run, this, hev]
    simp
    omega

theorem sentList_step_sent {st : RState} {row : Row} {e : Env} {rec : Record}
    {bs : List Nat} (hp : parseRecord row = some rec)
    (hb : pyBytes rec.data = some bs) (hf : e.sendFail = false) :
    sentList (step st row e) =
      sentList st ++ [(clockAfterWait st rec e + e.dS, rec)] := by
  rw [step_sent hp hb hf, sentList_mk]
  simp [sentList]

theorem sentList_step_parse_none {st : RState} {row : Row} {e : Env}
    (hp : parseRecord row = none) :
    sentList (step st row e) = sentList st := by
  rw [step_parse_none hp, sentList_mk]
  simp [sentList]

theorem sentList_step_build_none {st : RState} {row : Row} {e : Env}
    {rec : Record} (hp : parseRecord row = some rec)
    (hb : pyBytes rec.data = none) :
    sentList (step st row e) = sentList st := by
  rw [step_build_none hp hb, sentList_mk]
  simp [sentList]

theorem sentList_step_send_fail {st : RState} {row : Row} {e : Env}
    {rec : Record} {bs : List Nat} (hp : parseRecord row = some rec)
    (hb : pyBytes rec.data = some bs) (hf : e.sendFail = true) :
    sentList (step st row e) = sentList st := by
  rw [step_send_fail hp hb hf, sentList_mk]
  simp [sentList]

/-- Every event the run adds to the trace that reports a sent frame carries
the confirmation line printed from its own record, and a payload that
passed the bytes() range check. -/
theorem run_events_new (inputs : List (Row × Env)) : ∀ st : RState,
    ∀ ev ∈ (run st inputs).events, ev ∈ st.events ∨
      (∀ line t rec, ev = Ev.sent line t rec →
        line = printLine rec ∧ (pyBytes rec.data).isSome) := by
  induction inputs with
  | nil => intro st ev hev; exact Or.inl hev
  | cons p ps ih =>
    intro st ev hev
    have := ih (step st p.1 p.2) ev hev
    rcases this with hmem | hprop
    · -- the event was already present after the first step
      match hp : parseRecord p.1 with
      | none =>
        rw [step_parse_none hp] at hmem
        rcases List.mem_append.mp hmem with h | h
        · exact Or.inl h
        · right
          intro line t rec hev'
          simp only [List.mem_singleton] at h
          rw [h] at hev'
          exact absurd hev' (by simp)
      | some rec =>
        match hb : pyBytes rec.data with
        | none =>
          rw [step_build_none hp hb] at hmem
          rcases List.mem_append.mp hmem with h | h
          · exact Or.inl h
          · right
            intro line t rec' hev'
            simp only [List.mem_singleton] at h
            rw [h] at hev'
            exact absurd hev' (by simp)
        | some bs =>
          match hf : p.2.sendFail with
          | true =>
            rw [step_send_fail hp hb hf] at hmem
            rcases List.mem_append.mp hmem with h | h
            · exact Or.inl h
            · right
              intro line t rec' hev'
              simp only [List.mem_singleton] at h
              rw [h] at hev'
              exact absurd hev' (by simp)
          | false =>
            rw [step_sent hp hb hf] at hmem
            rcases List.mem_append.mp hmem with h | h
            · exact Or.inl h
            · right
              intro line t rec' hev'
              simp only [List.mem_singleton] at h
              rw [h] at hev'
              have h1 : line = printLine rec := by
                injection hev' with e1 _ _
                exact e1.symm
              have h3 : rec' = rec := by
                injection hev' with _ _ e3
                exact e3.symm
              rw [h1, h3, hb]
              exact ⟨rfl, rfl⟩
    · exact Or.inr hprop

/-- Over any suffix of valid inputs with the baseline already set at
(start_ts, start_time) = (s, T): the baseline survives, all the records are
sent in order, and no frame goes out before its baseline-relative deadline
T + (ts - s). -/
theorem run_noEarly {s T : ℚ} :
    ∀ {inputs : List (Row × Env)} {recs : List Record},
    List.Forall₂ okInput inputs recs →
    ∀ st : RState, st.baseline = some (s, T) →
    (run st inputs).baseline = some (s, T) ∧
    (sentList (run st inputs)).map Prod.snd =
      (sentList st).map Prod.snd ++ recs ∧
    (∀ pr ∈ sentList (run st inputs),
      pr ∈ sentList st ∨ T + (pr.2.tsQ - s) ≤ pr.1) := by
  intro inputs recs hF
  induction hF with
  | nil =>
    intro st hb
    refine ⟨hb, by simp [run], fun pr hpr => Or.inl hpr⟩
  | @cons p rec ps rs hpr _ ih =>
    intro st hb
    obtain ⟨hp, ⟨_, hgW, hgS, hgF⟩, hby⟩ := hpr
    obtain ⟨bs, hbs⟩ := Option.isSome_iff_exists.mp hby
    have hrun : run st (p :: ps) = run (step st p.1 p.2) ps := rfl
    have hb1 : (step st p.1 p.2).baseline = some (s, T) :=
      step_baseline_stable p.1 p.2 hb
    have hsl : sentList (step st p.1 p.2) =
        sentList st ++ [(clockAfterWait st rec p.2 + p.2.dS, rec)] :=
      sentList_step_sent hp hbs hgF
    obtain ⟨ihb, ihsnd, ihmem⟩ := ih (step st p.1 p.2) hb1
    rw [hrun]
    refine ⟨ihb, ?_, ?_⟩
    · rw [ihsnd, hsl]
      simp
    · intro pr hpr'
      rcases ihmem pr hpr' with hm | hbound
      · rw [hsl] at hm
        rcases List.mem_append.mp hm with h | h
        · exact Or.inl h
        · right
          simp only [List.mem_singleton] at h
          rw [h]
          have := @clockAfterWait_ge st rec p.2 s T hb
          simp only
          linarith
      · exact Or.inr hbound

/-- With every non-sleep operation instantaneous (the idealized schedule)
and nondecreasing record timestamps, each record is sent exactly at its
baseline-relative deadline T + (ts - s). -/
theorem run_zero {s T : ℚ} :
    ∀ {inputs : List (Row × Env)} {recs : List Record},
    List.Forall₂ okInput inputs recs →
    (∀ p ∈ inputs, p.2 = envZero) →
    ∀ st : RState, st.baseline = some (s, T) →
    List.Chain' (fun a b : Record => a.tsQ ≤ b.tsQ) recs →
    (∀ r1 ∈ recs.head?, st.clock ≤ T + (r1.tsQ - s)) →
    sentList (run st inputs) =
      sentList st ++ recs.map (fun r => (T + (r.tsQ - s), r)) := by
  intro inputs recs hF
  induction hF with
  | nil =>
    intro _ st _ _ _
    simp [run]
  | @cons p rec ps rs hpr _ ih =>
    intro hz st hb hchain hhead
    have hpz : p.2 = envZero := hz p (by simp)
    obtain ⟨hp, _, hby⟩ := hpr
    obtain ⟨bs, hbs⟩ := Option.isSome_iff_exists.mp hby
    have hclk : st.clock ≤ T + (rec.tsQ - s) :=
      hhead rec (by simp)
    have hcw : clockAfterWait st rec p.2 = T + (rec.tsQ - s) := by
      rw [hpz]
      simp only [clockAfterWait, hb, Option.getD_some, envZero, add_zero]
      split
      · ring
      · rename_i hneg
        rw [not_lt] at hneg
        have : st.clock = T + (rec.tsQ - s) := by linarith
        linarith [this]
    have hgF : p.2.sendFail = false := by rw [hpz]; rfl
    have hrun : run st (p :: ps) = run (step st p.1 p.2) ps := rfl
    have hsl : sentList (step st p.1 p.2) =
        sentList st ++ [(T + (rec.tsQ - s), rec)] := by
      rw [sentList_step_sent hp hbs hgF, hcw, hpz]
      simp [envZero]
    have hb1 : (step st p.1 p.2).baseline = some (s, T) :=
      step_baseline_stable p.1 p.2 hb
    have hc1 : (step st p.1 p.2).clock = T + (rec.tsQ - s) := by
      rw [step_sent hp hbs hgF]
      simp only
      rw [hcw, hpz]
      simp [envZero]
    obtain ⟨hrel, hchain'⟩ := List.chain'_cons'.mp hchain
    have hhead1 : ∀ r1 ∈ rs.head?, (step st p.1 p.2).clock ≤ T + (r1.tsQ - s) := by
      intro r1 hr1
      rw [hc1]
      have := hrel r1 hr1
      linarith
    have := ih (fun q hq => hz q (List.mem_cons_of_mem _ hq)) (step st p.1 p.2) hb1 hchain' hhead1
    rw [hrun, this, hsl]
    simp

/-- C2: the baseline pair (start_ts, start_time) is written at most once per
run, by the first successfully parsed record only: a malformed row never
establishes or alters it (even as the first row, and even over a whole run
of malformed rows), and once set it is unchanged by every later record. -/
theorem claim2_baseline_once :
    (∀ (st : RState) (row : Row) (e : Env),
      parseRecord row = none → (step st row e).baseline = st.baseline) ∧
    (∀ (st : RState) (row : Row) (e : Env) (b : ℚ × ℚ),
      st.baseline = some b → (step st row e).baseline = some b) ∧
    (∀ (st : RState) (row : Row) (e : Env) (rec : Record),
      st.baseline = none → parseRecord row = some rec →
      (step st row e).baseline = some (rec.tsQ, st.clock + e.dP)) ∧
    (∀ (st : RState) (inputs : List (Row × Env)),
      (∀ p ∈ inputs, parseRecord p.1 = none) →
      (run st inputs).baseline = st.baseline) := by
  refine ⟨fun st row e hp => step_baseline_parse_none e hp,
    fun st row e b hb => step_baseline_stable row e hb,
    fun st row e rec hb hp => step_baseline_set hb hp, ?_⟩
  intro st inputs
  induction inputs generalizing st with
  | nil => intro _; rfl
  | cons p ps ih =>
    intro hall
    have h1 : parseRecord p.1 = none := hall p (by simp)
    have h2 := ih (step st p.1 p.2)
      (fun q hq => hall q (List.mem_cons_of_mem _ hq))
    calc (run st (p :: ps)).baseline
        = (run (step st p.1 p.2) ps).baseline := rfl
      _ = (step st p.1 p.2).baseline := h2
      _ = st.baseline := step_baseline_parse_none p.2 h1

theorem claim2_witness :
    (step (init 0) rowBadId envZero).baseline = none ∧
    (step ⟨some (5, 0), 20, []⟩ rowB envZero).baseline = some (5, 0) ∧
    (step (init 0) rowA envZero).baseline = some (5, 0) ∧
    (run (init 0) [(rowBadId, envZero), (rowBadId, envZero)]).baseline = none := by
  have h := claim2_baseline_once
  refine ⟨(h.1 (init 0) rowBadId envZero (by decide)).trans rfl,
    h.2.1 ⟨some (5, 0), 20, []⟩ rowB envZero (5, 0) rfl, ?_, ?_⟩
  · rw [h.2.2.1 (init 0) rowA envZero recA rfl (by decide)]
    norm_num [recA, Record.tsQ, init, envZero]
  · exact (h.2.2.2 (init 0) [(rowBadId, envZero), (rowBadId, envZero)]
      (by decide)).trans rfl

/-- C3: the except handler wraps the entire per-record body: every row
yields exactly one trace event; a failure at any stage — parse, frame
construction (bytes range), or the bus send itself — only skips that row
with the raw row recorded, and the run processes all remaining rows, ending
only at end of input. -/
theorem claim3_per_record_catch :
    (∀ (st : RState) (inputs : List (Row × Env)),
      (run st inputs).events.length = st.events.length + inputs.length) ∧
    (∀ (st : RState) (row : Row) (e : Env),
      ∃ ev, (step st row e).events = st.events ++ [ev]) ∧
    (∀ (st : RState) (row : Row) (e : Env),
      parseRecord row = none →
      (step st row e).events = st.events ++ [Ev.skipped ErrKind.parseErr row]) ∧
    (∀ (st : RState) (row : Row) (e : Env) (rec : Record),
      parseRecord row = some rec → pyBytes rec.data = none →
      (step st row e).events = st.events ++ [Ev.skipped ErrKind.buildErr row]) ∧
    (∀ (st : RState) (row : Row) (e : Env) (rec : Record) (bs : List Nat),
      parseRecord row = some rec → pyBytes rec.data = some bs →
      e.sendFail = true →
      (step st row e).events = st.events ++ [Ev.skipped ErrKind.sendErr row]) := by
  refine ⟨fun st inputs => run_events_length inputs st, step_shape, ?_, ?_, ?_⟩
  · intro st row e hp
    rw [step_parse_none hp]
  · intro st row e rec hp hb
    rw [step_build_none hp hb]
  · intro st row e rec bs hp hb hf
    rw [step_send_fail hp hb hf]

theorem claim3_witness :
    (run (init 0) [(rowBadId, envZero), (rowA, envZero)]).events.length = 2 ∧
    (step (init 0) rowBadId envZero).events =
      [Ev.skipped ErrKind.parseErr rowBadId] ∧
    (step (init 0) rowBigByte envZero).events =
      [Ev.skipped ErrKind.buildErr rowBigByte] ∧
    (step (init 0) rowA ⟨0, 0, 0, true⟩).events =
      [Ev.skipped ErrKind.sendErr rowA] := by
  have h := claim3_per_record_catch
  refine ⟨?_, ?_, ?_, ?_⟩
  · have := h.1 (init 0) [(rowBadId, envZero), (rowA, envZero)]
    simpa [init] using this
  · have := h.2.2.1 (init 0) rowBadId envZero (by decide)
    simpa [init] using this
  · have := h.2.2.2.1 (init 0) rowBigByte envZero ⟨0, 26, 1, true, [511]⟩
      (by decide) (by decide)
    simpa [init] using this
  · have := h.2.2.2.2 (init 0) rowA ⟨0, 0, 0, true⟩ recA [255]
      (by decide) (by decide) rfl
    simpa [init] using this

/-- C4: the first successfully parsed record is sent with zero enforced
wait: its wait_time is not positive by construction, so no sleep happens
(the clock only accumulates the scheduling delays) and the record is sent. -/
theorem claim4_first_record_no_wait
    (st : RState) (row : Row) (e : Env) (rec : Record)
    (hb : st.baseline = none) (hp : parseRecord row = some rec)
    (hW : 0 ≤ e.dW) (hby : (pyBytes rec.data).isSome)
    (hf : e.sendFail = false) :
    stepWait st rec e ≤ 0 ∧
    (step st row e).clock = st.clock + e.dP + e.dW + e.dS ∧
    (step st row e).events = st.events ++
      [Ev.sent (printLine rec) (st.clock + e.dP + e.dW + e.dS) rec] := by
  obtain ⟨bs, hbs⟩ := Option.isSome_iff_exists.mp hby
  have h1 : stepWait st rec e = -e.dW := stepWait_first hb
  have h2 : clockAfterWait st rec e = st.clock + e.dP + e.dW :=
    clockAfterWait_first hb hW
  refine ⟨by rw [h1]; linarith, ?_, ?_⟩
  · rw [step_sent hp hbs hf]
    simp only
    rw [h2]
  · rw [step_sent hp hbs hf, h2]

theorem claim4_witness :
    stepWait (init 0) recA ⟨0, 1, 0, false⟩ ≤ 0 ∧
    (step (init 0) rowA ⟨0, 1, 0, false⟩).events =
      [Ev.sent (printLine recA) 1 recA] := by
  have h := claim4_first_record_no_wait (init 0) rowA ⟨0, 1, 0, false⟩ recA
    rfl (by decide) (by norm_num) (by decide) rfl
  refine ⟨h.1, ?_⟩
  have := h.2.2
  simpa [init] using this

/-- C10: a first record that parses but fails later (frame construction or
send) still establishes the baseline before failing: nothing is sent for
it and it is reported skipped, yet every subsequent record's wait_time is
computed against the baseline pair this failed record wrote. -/
theorem claim10_baseline_not_atomic
    (st : RState) (row : Row) (e : Env) (rec : Record)
    (hb : st.baseline = none) (hp : parseRecord row = some rec)
    (hfail : e.sendFail = true ∨ pyBytes rec.data = none) :
    (step st row e).baseline = some (rec.tsQ, st.clock + e.dP) ∧
    sentList (step st row e) = sentList st ∧
    (∃ k, (step st row e).events = st.events ++ [Ev.skipped k row]) ∧
    (∀ (rec' : Record) (e' : Env),
      stepWait (step st row e) rec' e' = (rec'.tsQ - rec.tsQ) -
        (((step st row e).clock + e'.dP + e'.dW) - (st.clock + e.dP))) := by
  have hbl := @step_baseline_set st row e rec hb hp
  refine ⟨hbl, ?_, ?_, ?_⟩
  · match hby : pyBytes rec.data with
    | none => exact sentList_step_build_none hp hby
    | some bs =>
      rcases hfail with hf | hn
      · exact sentList_step_send_fail hp hby hf
      · simp [hn] at hby
  · match hby : pyBytes rec.data with
    | none => exact ⟨ErrKind.buildErr, by rw [step_build_none hp hby]⟩
    | some bs =>
      rcases hfail with hf | hn
      · exact ⟨ErrKind.sendErr, by rw [step_send_fail hp hby hf]⟩
      · simp [hn] at hby
  · intro rec' e'
    rw [stepWait_eq hbl]

theorem claim10_witness :
    (step (init 0) rowA ⟨0, 0, 0, true⟩).baseline = some (5, 0) ∧
    sentList (step (init 0) rowA ⟨0, 0, 0, true⟩) = [] ∧
    stepWait (step (init 0) rowA ⟨0, 0, 0, true⟩) recB envZero = 1 := by
  have h := claim10_baseline_not_atomic (init 0) rowA ⟨0, 0, 0, true⟩ recA
    rfl (by decide) (Or.inl rfl)
  have hc : (step (init 0) rowA ⟨0, 0, 0, true⟩).clock = 0 := by
    rw [step_send_fail (by decide : parseRecord rowA = some recA)
      (by decide : pyBytes recA.data = some [255]) rfl]
    simp only
    rw [clockAfterWait_first rfl (le_refl 0)]
    norm_num [init]
  refine ⟨?_, ?_, ?_⟩
  · rw [h.1]
    norm_num [recA, Record.tsQ, init]
  · exact (h.2.1).trans rfl
  · rw [h.2.2.2 recB envZero, hc]
    norm_num [recA, recB, Record.tsQ, init, envZero]

/-- What the data loop collects when it succeeds: the non-empty D-columns
over the index range, in order, each parsed as hexadecimal. -/
theorem collectData_spec {row : Row} : ∀ {is : List Nat} {l : List Int},
    collectData row is = some l →
    l = is.filterMap (fun i =>
      (row.get ("D" ++ natToDec i)).bind (fun v =>
        if v = "" then none else pyIntHex v)) := by
  intro is
  induction is with
  | nil =>
    intro l h
    simp [collectData] at h
    simp [h.symm]
  | cons i is' ih =>
    intro l h
    match hv : row.get ("D" ++ natToDec i) with
    | none => simp [collectData, hv] at h
    | some v =>
      simp only [collectData, hv] at h
      rw [List.filterMap_cons, hv]
      by_cases hve : v = ""
      · rw [if_pos hve] at h
        simp only [Option.some_bind, if_pos hve]
        exact ih h
      · rw [if_neg hve] at h
        simp only [Option.some_bind, if_neg hve]
        match hb : pyIntHex v with
        | none => simp [hb] at h
        | some b =>
          simp only [hb] at h
          match hr : collectData row is' with
          | none => simp [hr] at h
          | some rest =>
            simp only [hr, Option.some.injEq] at h
            rw [← h, ih hr]

/-- If some index in the range names a missing column, the data loop
raises (returns none), no matter where in the list the index sits. -/
theorem collectData_none {row : Row} : ∀ {is : List Nat} {i : Nat},
    i ∈ is → row.get ("D" ++ natToDec i) = none →
    collectData row is = none := by
  intro is
  induction is with
  | nil =>
    intro i hmem _
    exact absurd hmem (List.not_mem_nil i)
  | cons j is' ih =>
    intro i hmem hget
    rcases List.mem_cons.mp hmem with heq | hmem'
    · subst heq
      simp [collectData, hget]
    · match hv : row.get ("D" ++ natToDec j) with
      | none => simp [collectData, hv]
      | some v =>
        simp only [collectData, hv]
        by_cases hve : v = ""
        · rw [if_pos hve]
          exact ih hmem' hget
        · rw [if_neg hve]
          rw [ih hmem' hget]
          cases pyIntHex v <;> rfl

/-- Inversion of a successful parse: every field of the record comes from
its column, and the payload from the data loop over range(1, dlc+1). -/
theorem parseRecord_inv {row : Row} {rec : Record}
    (hp : parseRecord row = some rec) :
    ∃ tsS idS lenS extS,
      row.get ("Time Stamp") = some tsS ∧ pyInt tsS = some rec.ts_us ∧
      row.get ("ID") = some idS ∧ pyIntHex idS = some rec.canid ∧
      row.get ("LEN") = some lenS ∧ pyInt lenS = some rec.dlc ∧
      row.get ("Extended") = some extS ∧
      rec.is_ext = (pyLower extS == "true") ∧
      collectData row (List.range' 1 rec.dlc.toNat) = some rec.data := by
  unfold parseRecord at hp
  repeat (split at hp <;> try exact Option.noConfusion hp)
  injection hp with hrec
  subst hrec
  rename_i x1 tsS h1 x2 ts h2 x3 idS h3 x4 cid h4 x5 lenS h5 x6 dlc h6
    x7 extS h7 x8 data h8
  exact ⟨tsS, idS, lenS, extS, h1, h2, h3, h4, h5, h6, h7, rfl, h8⟩

/-- C6: the payload of a parsed record is exactly the non-empty data
sub-fields D1..DLEN in field order, empty sub-fields omitted. -/
theorem claim6_payload_skips_empty (row : Row) (rec : Record)
    (hp : parseRecord row = some rec) :
    rec.data = payloadSpec row rec.dlc := by
  obtain ⟨_, _, _, _, _, _, _, _, _, _, _, _, hcd⟩ := parseRecord_inv hp
  exact collectData_spec hcd

theorem claim6_witness :
    parseRecord rowSparse = some ⟨0, 26, 3, true, [170, 11]⟩ ∧
    (⟨0, 26, 3, true, [170, 11]⟩ : Record).data =
      payloadSpec rowSparse (⟨0, 26, 3, true, [170, 11]⟩ : Record).dlc ∧
    [(170 : Int), 11].length = 2 := by
  refine ⟨by decide, ?_, rfl⟩
  exact claim6_payload_skips_empty rowSparse ⟨0, 26, 3, true, [170, 11]⟩
    (by decide)

/-- C7: is_extended is true iff the Extended field equals, after ASCII
lowercasing, the literal "true"; any other text parses without error to
is_extended = false. -/
theorem claim7_extended_policy :
    (∀ s : String,
      parseRecord (rowExtT s) = some ⟨0, 26, 1, pyLower s == "true", [255]⟩) ∧
    (∀ s : String, (pyLower s == "true") = true ↔ pyLower s = "true") := by
  constructor
  · intro s
    rfl
  · intro s
    exact beq_iff_eq

/-- C8 counterexample: the row with LEN = -1 parses (no range check on the
declared length), is sent, and its declared length -1 lies outside 0..8;
the claim that every successfully sent record has LEN in 0..8 is false. -/
theorem claim8_counterexample :
    parseRecord rowNegLen = some ⟨0, 26, -1, false, []⟩ ∧
    sentRecs (run (init 0) [(rowNegLen, envZero)]) = [⟨0, 26, -1, false, []⟩] ∧
    (run (init 0) [(rowNegLen, envZero)]).events.map evLine =
      [some "Sent t=0.000000s ID=0x1A DLC=-1 Data="] ∧
    ¬ (0 ≤ (⟨0, 26, -1, false, []⟩ : Record).dlc ∧
        (⟨0, 26, -1, false, []⟩ : Record).dlc ≤ 8) := by
  refine ⟨by decide, by decide, by decide, by decide⟩

/-- C8 amended: over rows that provide no D9 column (the format defines
D1..D8 only), a record can only parse — and hence be sent — with declared
length at most 8: a larger LEN makes the data loop hit the missing column
and the row is skipped.  (A negative LEN still parses, see the
counterexample.) -/
theorem claim8_len_le_eight (row : Row) (rec : Record)
    (hp : parseRecord row = some rec) (h9 : row.get ("D9") = none) :
    rec.dlc ≤ 8 := by
  by_contra hgt
  push_neg at hgt
  obtain ⟨_, _, _, _, _, _, _, _, _, _, _, _, hcd⟩ := parseRecord_inv hp
  have h9mem : 9 ∈ List.range' 1 rec.dlc.toNat := by
    rw [List.mem_range']
    exact ⟨8, by omega, by norm_num⟩
  have hkey : row.get ("D" ++ natToDec 9) = none := by
    have h : ("D" ++ natToDec 9) = "D9" := by decide
    rw [h]
    exact h9
  rw [collectData_none h9mem hkey] at hcd
  exact Option.noConfusion hcd

theorem claim8_witness : (recA.dlc ≤ 8) ∧ ((8 : Int) ≤ 8) := by
  refine ⟨claim8_len_le_eight rowA recA (by decide) (by decide), le_refl 8⟩

/-- bytes() fails whenever some collected value is outside 0..255. -/
theorem pyBytes_none {l : List Int} (h : ∃ b ∈ l, b < 0 ∨ 255 < b) :
    pyBytes l = none := by
  obtain ⟨b, hb, hbad⟩ := h
  rw [pyBytes, if_neg]
  intro hall
  have := List.all_eq_true.mp hall b hb
  simp only [Bool.and_eq_true, decide_eq_true_eq] at this
  rcases hbad with h1 | h1 <;> omega

/-- bytes() succeeding means every collected value is a byte. -/
theorem pyBytes_isSome_mem {l : List Int} (h : (pyBytes l).isSome) :
    ∀ b ∈ l, 0 ≤ b ∧ b ≤ 255 := by
  intro b hb
  rw [pyBytes] at h
  by_cases hall : l.all (fun b => decide (0 ≤ b) && decide (b ≤ 255))
  · have := List.all_eq_true.mp hall b hb
    simp only [Bool.and_eq_true, decide_eq_true_eq] at this
    exact this
  · rw [if_neg hall] at h
    exact absurd h (by simp)

/-- C9: a row whose data fields parse but contain a value outside 0..255
is skipped whole at frame construction — reported, nothing sent, the loop
continues — and no sent frame ever carries an out-of-range byte. -/
theorem claim9_out_of_range_byte :
    (∀ (st : RState) (row : Row) (e : Env) (rec : Record),
      parseRecord row = some rec → (∃ b ∈ rec.data, b < 0 ∨ 255 < b) →
      (step st row e).events = st.events ++ [Ev.skipped ErrKind.buildErr row] ∧
      sentList (step st row e) = sentList st) ∧
    (∀ (st : RState) (inputs : List (Row × Env)) (line : String) (t : ℚ)
      (rec : Record),
      Ev.sent line t rec ∈ (run st inputs).events →
      Ev.sent line t rec ∉ st.events →
      ∀ b ∈ rec.data, 0 ≤ b ∧ b ≤ 255) := by
  constructor
  · intro st row e rec hp hbad
    have hn := pyBytes_none hbad
    exact ⟨by rw [step_build_none hp hn], sentList_step_build_none hp hn⟩
  · intro st inputs line t rec hmem hnotin
    rcases run_events_new inputs st _ hmem with h | h
    · exact absurd h hnotin
    · exact pyBytes_isSome_mem (h line t rec rfl).2

theorem claim9_witness :
    parseRecord rowBigByte = some ⟨0, 26, 1, true, [511]⟩ ∧
    (step (init 0) rowBigByte envZero).events =
      [Ev.skipped ErrKind.buildErr rowBigByte] ∧
    sentList (step (init 0) rowBigByte envZero) = [] := by
  have h1 := (claim9_out_of_range_byte).1 (init 0) rowBigByte envZero
    ⟨0, 26, 1, true, [511]⟩ (by decide) ⟨511, by decide, Or.inr (by decide)⟩
  exact ⟨by decide, by simpa [init] using h1.1, h1.2.trans rfl⟩

/-- C5 counterexample: when the first record's capture timestamp is 5 s,
the confirmation line for a record captured at 6 s reads t=6.000000 — the
absolute capture timestamp — not t=1.000000, the timestamp relative to the
first record that the claim prescribes. -/
theorem claim5_counterexample :
    (run (init 0) [(rowA, envZero), (rowB, envZero)]).events.map evLine =
      [some "Sent t=5.000000s ID=0x1A DLC=1 Data=FF",
       some "Sent t=6.000000s ID=0x1A DLC=1 Data=FF"] ∧
    fmt6 (recB.ts_us - recA.ts_us) = "1.000000" ∧
    "Sent t=6.000000s ID=0x1A DLC=1 Data=FF" ≠
      "Sent t=" ++ fmt6 (recB.ts_us - recA.ts_us) ++
        "s ID=0x1A DLC=1 Data=FF" := by
  refine ⟨by decide, by decide, by decide⟩

/-- C5 amended: every sent-frame console line has exactly the form
Sent t=<sec>.<6 digits>s ID=0x<HEX> DLC=<int> Data=<HEX bytes space
separated>, where the t= value is the record's own absolute capture
timestamp (ts_us / 1e6, six fractional digits) — not the timestamp
relative to the first record — the ID the arbitration id in uppercase
hex, DLC the declared length, and Data the collected payload values as
two-digit uppercase hex. -/
theorem claim5_sent_line_absolute_ts (st : RState) (inputs : List (Row × Env))
    (hst : ∀ ev ∈ st.events, ∀ line t rec, ev = Ev.sent line t rec →
      line = printLine rec) :
    ∀ ev ∈ (run st inputs).events, ∀ line t rec, ev = Ev.sent line t rec →
      line = "Sent t=" ++ fmt6 rec.ts_us ++ "s ID=0x" ++ intToHexU rec.canid ++
        " DLC=" ++ intToDec rec.dlc ++ " Data=" ++
        String.intercalate " " (rec.data.map hex2) := by
  intro ev hev line t rec heq
  rcases run_events_new inputs st ev hev with h | h
  · exact hst ev h line t rec heq
  · exact (h line t rec heq).1

theorem claim5_witness :
    printLine recA = "Sent t=5.000000s ID=0x1A DLC=1 Data=FF" := by
  have h := claim5_sent_line_absolute_ts (init 0) [(rowA, envZero)]
    (fun ev hev => absurd hev (List.not_mem_nil ev))
  have hev : (run (init 0) [(rowA, envZero)]).events =
      [Ev.sent (printLine recA)
        (clockAfterWait (init 0) recA envZero + envZero.dS) recA] := by
    show (step (init 0) rowA envZero).events = _
    rw [step_sent (by decide : parseRecord rowA = some recA)
      (by decide : pyBytes recA.data = some [255]) rfl]
    simp [init]
  have hl := h _ (by rw [hev]; exact List.mem_singleton_self _)
    (printLine recA) (clockAfterWait (init 0) recA envZero + envZero.dS)
    recA rfl
  rw [hl]
  decide

/-- A relation that holds of every pair holds along any list. -/
theorem chain'_of_total {α : Type} {R : α → α → Prop} (h : ∀ a b, R a b) :
    ∀ l : List α, List.Chain' R l := by
  intro l
  induction l with
  | nil => exact List.chain'_nil
  | cons a t ih => exact List.chain'_cons'.mpr ⟨fun y _ => h a y, ih⟩

/-- C1: the wait of every record is computed against the original baseline
(wait_time = (ts - start_ts) - elapsed); the loop sleeps exactly wait_time
when positive and proceeds immediately otherwise; hence over a run of valid
records with nondecreasing timestamps no frame is ever sent before its
baseline-relative deadline (under any nonnegative scheduling delays), and
under the idealized schedule each frame goes out exactly at its deadline,
so consecutive send times are spaced at least — exactly — the capture
timestamp differences apart. -/
theorem claim1_timing_faithful_replay
    (inputs : List (Row × Env)) (recs : List Record) (r1 : Record) (t0 : ℚ)
    (hhead : recs.head? = some r1)
    (hF : List.Forall₂ okInput inputs recs)
    (hchain : List.Chain' (fun a b : Record => a.tsQ ≤ b.tsQ) recs) :
    (∀ (st : RState) (rec : Record) (e : Env) (s T : ℚ),
      st.baseline = some (s, T) →
      stepWait st rec e = (rec.tsQ - s) - ((st.clock + e.dP + e.dW) - T)) ∧
    (∀ (st : RState) (row : Row) (e : Env) (rec : Record) (bs : List Nat),
      parseRecord row = some rec → pyBytes rec.data = some bs →
      (step st row e).clock = st.clock + e.dP + e.dW +
        (if 0 < stepWait st rec e then stepWait st rec e else 0) + e.dS) ∧
    (∃ T, (run (init t0) inputs).baseline = some (r1.tsQ, T) ∧
      sentRecs (run (init t0) inputs) = recs ∧
      ∀ pr ∈ sentList (run (init t0) inputs),
        T + (pr.2.tsQ - r1.tsQ) ≤ pr.1) ∧
    ((∀ p ∈ inputs, p.2 = envZero) →
      sentList (run (init t0) inputs) =
        recs.map (fun r => (t0 + (r.tsQ - r1.tsQ), r)) ∧
      List.Chain' (fun a b : ℚ × Record => b.2.tsQ - a.2.tsQ ≤ b.1 - a.1)
        (sentList (run (init t0) inputs))) := by
  refine ⟨fun st rec e s T hb => stepWait_eq hb, ?_, ?_⟩
  · intro st row e rec bs hp hb
    match hf : e.sendFail with
    | true =>
      rw [step_send_fail hp hb hf]
      show clockAfterWait st rec e + e.dS = _
      rw [clockAfterWait_eq]
    | false =>
      rw [step_sent hp hb hf]
      show clockAfterWait st rec e + e.dS = _
      rw [clockAfterWait_eq]
  · match inputs, recs, hF with
    | [], [], _ => simp at hhead
    | p :: ps, rec1 :: rs, List.Forall₂.cons hpr hrest =>
      have hr1 : r1 = rec1 := by
        rw [List.head?_cons, Option.some.injEq] at hhead
        exact hhead.symm
      subst hr1
      obtain ⟨hp, ⟨hgP, hgW, hgS, hgF⟩, hby⟩ := hpr
      obtain ⟨bs, hbs⟩ := Option.isSome_iff_exists.mp hby
      have hb1 : (step (init t0) p.1 p.2).baseline =
          some (r1.tsQ, (init t0).clock + p.2.dP) :=
        step_baseline_set rfl hp
      have hcw1 : clockAfterWait (init t0) r1 p.2 =
          (init t0).clock + p.2.dP + p.2.dW :=
        clockAfterWait_first rfl hgW
      have hsl1 : sentList (step (init t0) p.1 p.2) =
          [(clockAfterWait (init t0) r1 p.2 + p.2.dS, r1)] := by
        rw [sentList_step_sent hp hbs hgF]
        rfl
      have hclk1 : (step (init t0) p.1 p.2).clock =
          clockAfterWait (init t0) r1 p.2 + p.2.dS := by
        rw [step_sent hp hbs hgF]
      obtain ⟨ihb, ihsnd, ihmem⟩ := run_noEarly hrest (step (init t0) p.1 p.2) hb1
      obtain ⟨hrel, hchain'⟩ := List.chain'_cons'.mp hchain
      constructor
      · refine ⟨(init t0).clock + p.2.dP, ihb, ?_, ?_⟩
        · show (sentList (run (step (init t0) p.1 p.2) ps)).map Prod.snd =
            r1 :: rs
          rw [ihsnd, hsl1]
          rfl
        · intro pr hpr'
          rcases ihmem pr hpr' with hm | hbound
          · rw [hsl1] at hm
            simp only [List.mem_singleton] at hm
            rw [hm]
            simp only
            rw [hcw1]
            have : r1.tsQ - r1.tsQ = 0 := sub_self _
            linarith
          · exact hbound
      · intro hz
        have hpz : p.2 = envZero := hz p (by simp)
        have hTz : (init t0).clock + p.2.dP = t0 := by
          rw [hpz]
          show t0 + (0 : ℚ) = t0
          ring
        have hhead1 : ∀ r2 ∈ rs.head?,
            (step (init t0) p.1 p.2).clock ≤
              ((init t0).clock + p.2.dP) + (r2.tsQ - r1.tsQ) := by
          intro r2 hr2
          rw [hclk1, hcw1, hpz]
          have := hrel r2 hr2
          show t0 + 0 + 0 + 0 ≤ t0 + 0 + (r2.tsQ - r1.tsQ)
          linarith
        have hrunz := run_zero hrest
          (fun q hq => hz q (List.mem_cons_of_mem _ hq))
          (step (init t0) p.1 p.2) hb1 hchain' hhead1
        have hTeq : ∀ r : Record,
            ((init t0).clock + p.2.dP) + (r.tsQ - r1.tsQ) =
              t0 + (r.tsQ - r1.tsQ) := by
          intro r
          rw [hTz]
        have hc4 : clockAfterWait (init t0) r1 p.2 + p.2.dS =
            t0 + (r1.tsQ - r1.tsQ) := by
          rw [hcw1, hpz]
          show t0 + 0 + 0 + 0 = t0 + (r1.tsQ - r1.tsQ)
          ring
        have hmap : sentList (run (step (init t0) p.1 p.2) ps) =
            (r1 :: rs).map (fun r => (t0 + (r.tsQ - r1.tsQ), r)) := by
          rw [hrunz, hsl1, hc4]
          have hfun : (fun r : Record =>
              ((init t0).clock + p.2.dP + (r.tsQ - r1.tsQ), r)) =
              (fun r : Record => (t0 + (r.tsQ - r1.tsQ), r)) :=
            funext fun r => by rw [hTeq]
          rw [hfun, List.map_cons]
          rfl
        refine ⟨hmap, ?_⟩
        show List.Chain' _ (sentList (run (step (init t0) p.1 p.2) ps))
        rw [hmap, List.chain'_map]
        apply chain'_of_total
        intro a b
        simp only
        linarith

theorem claim1_witness :
    sentList (run (init 0) [(rowA, envZero), (rowB, envZero)]) =
      [recA, recB].map (fun r => ((0 : ℚ) + (r.tsQ - recA.tsQ), r)) ∧
    sentRecs (run (init 0) [(rowA, envZero), (rowB, envZero)]) =
      [recA, recB] := by
  have hF : List.Forall₂ okInput [(rowA, envZero), (rowB, envZero)]
      [recA, recB] :=
    List.Forall₂.cons
      ⟨by decide, ⟨le_refl 0, le_refl 0, le_refl 0, rfl⟩, by decide⟩
      (List.Forall₂.cons
        ⟨by decide, ⟨le_refl 0, le_refl 0, le_refl 0, rfl⟩, by decide⟩
        List.Forall₂.nil)
  have hle : recA.tsQ ≤ recB.tsQ := by
    norm_num [recA, recB, Record.tsQ]
  have hchain : List.Chain' (fun a b : Record => a.tsQ ≤ b.tsQ)
      [recA, recB] := List.Chain.cons hle List.Chain.nil
  have h := claim1_timing_faithful_replay [(rowA, envZero), (rowB, envZero)]
    [recA, recB] recA 0 rfl hF hchain
  have hz : ∀ p ∈ [(rowA, envZero), (rowB, envZero)], p.2 = envZero := by
    intro q hq
    rcases List.mem_cons.mp hq with h1 | h1
    · rw [h1]
    · rcases List.mem_cons.mp h1 with h2 | h2
      · rw [h2]
      · exact absurd h2 (List.not_mem_nil q)
  obtain ⟨T, _, hsnd, _⟩ := h.2.2.1
  exact ⟨(h.2.2.2 hz).1, hsnd⟩
